import Mathlib

/-!
Verification model of the speech-segmentation and conversational turn-taking
engine of the xiao-tang AI companion: the voice-activity state machine of
src/senses/voice_listener.py and the orchestration logic of src/main.py.

Modelling conventions:
* Python strings are lists of characters; lowercasing is per-character.
* PCM samples are integers; RMS-energy comparisons against a threshold are
  carried out on exact integers (sqrt(sum/n) < T iff sum < T^2 * n), which
  coincides with the float comparison of the source for all realistic sizes.
* Wall-clock timestamps are natural numbers of milliseconds; each captured
  frame carries the timestamp of its read.  The theorems that speak about
  exact durations assume the idealized timing in which one blocking read of
  a 30 ms frame completes every 30 ms.
* Frame reads that raise, and frames the VAD itself raises on, are skipped
  by the source loop; the embedded stream is the sequence of frames that
  survived those guards.
-/

namespace XiaoTang

/-- Python strings modelled as lists of characters. -/
abbrev Str := List Char

/-- Build a model string from a Lean string literal. -/
def str (s : String) : Str := s.data

/-- Whitespace test used by str.strip() and the regex class \s. -/
def isWs (c : Char) : Bool := c.isWhitespace

/-- Drop leading whitespace (left part of str.strip()). -/
def dropWs : Str → Str
  | [] => []
  | c :: rest => if isWs c then dropWs rest else c :: rest

/-- Drop trailing whitespace (right part of str.strip()). -/
def dropWsEnd : Str → Str
  | [] => []
  | c :: rest =>
    let r := dropWsEnd rest
    if r = [] && isWs c then [] else c :: r

/-- Python str.strip() with no arguments. -/
def pyStrip (s : Str) : Str := dropWsEnd (dropWs s)

/-- Python str.lower(), modelled per character. -/
def pyLower (s : Str) : Str := s.map Char.toLower

/-- Drop leading characters belonging to a given set (str.strip(chars), left). -/
def dropChars (cs : List Char) : Str → Str
  | [] => []
  | c :: rest => if c ∈ cs then dropChars cs rest else c :: rest

/-- Drop trailing characters belonging to a given set (str.strip(chars), right). -/
def dropCharsEnd (cs : List Char) : Str → Str
  | [] => []
  | c :: rest =>
    let r := dropCharsEnd cs rest
    if r = [] && c ∈ cs then [] else c :: r

/-- Python str.strip(chars): strip the given characters from both ends. -/
def pyStripChars (cs : List Char) (s : Str) : Str := dropCharsEnd cs (dropChars cs s)

/-- Whether a starts b (leading-segment test for the substring check). -/
def startsWithL : Str → Str → Bool
  | [], _ => true
  | _ :: _, [] => false
  | a :: as, b :: bs => a = b && startsWithL as bs

/-- Python "a in b" on strings: a occurs contiguously inside b. -/
def containsSub (a : Str) : Str → Bool
  | [] => startsWithL a []
  | c :: bs => startsWithL a (c :: bs) || containsSub a bs

/- ---------------------------------------------------------------------
   VoiceListener (src/senses/voice_listener.py): constants and the
   capture-loop VAD state machine.
   --------------------------------------------------------------------- -/

/-- VoiceListener.SPEECH_START_FRAMES: voiced frames needed to start. -/
def SPEECH_START_FRAMES : Nat := 8

/-- VoiceListener.SILENCE_END_FRAMES: silent frames needed to stop. -/
def SILENCE_END_FRAMES : Nat := 30

/-- VoiceListener.MIN_SPEECH_DURATION_S = 0.8 s, in milliseconds. -/
def MIN_SPEECH_DURATION_MS : Nat := 800

/-- VoiceListener.MAX_SPEECH_DURATION_S = 30.0 s, in milliseconds. -/
def MAX_SPEECH_DURATION_MS : Nat := 30000

/-- VoiceListener.ENERGY_THRESHOLD: RMS floor shared by the per-frame gate
    and the per-segment gate. -/
def ENERGY_THRESHOLD : Nat := 300

/-- VoiceListener.FRAME_DURATION_MS. -/
def FRAME_DURATION_MS : Nat := 30

/-- One frame of PCM samples. -/
abbrev Frame := List Int

/-- Sum of squared samples. -/
def sumSq (samples : Frame) : Int := (samples.map fun x => x * x).sum

/-- rms < ENERGY_THRESHOLD for one frame, on exact integers:
    sqrt(sum/n) < 300 iff sum < 90000 * n.  An empty sample block gives
    NaN in the source, and NaN < 300 is false. -/
def rmsBelowThreshold (samples : Frame) : Bool :=
  if samples.isEmpty then false
  else decide (sumSq samples < (90000 : Int) * samples.length)

/-- avg_energy < ENERGY_THRESHOLD over all frames of a segment: the source
    leaves avg_energy = 0.0 (below threshold) when the frame list is empty,
    and otherwise compares sqrt(totalSum/totalLen) with 300. -/
def avgEnergyBelowThreshold (frames : List Frame) : Bool :=
  if frames.isEmpty then true
  else
    let n : Nat := (frames.map List.length).sum
    if n = 0 then false
    else decide ((frames.map sumSq).sum < (90000 : Int) * n)

/-- One iteration of the capture loop, from the capture thread's view:
    the mute flag as read this iteration, the raw frame, the external VAD
    verdict, the answer the output-device activity probe would give if
    polled now, and the wall-clock timestamp of the read (ms). -/
structure FrameEvent where
  muted : Bool
  samples : Frame
  vadSpeech : Bool
  systemAudio : Bool
  now : Nat
deriving DecidableEq, Repr

/-- is_voiced after the energy override: the statistical detector and the
    RMS gate must both agree. -/
def isVoicedFrame (e : FrameEvent) : Bool := e.vadSpeech && !rmsBelowThreshold e.samples

/-- The VAD state machine's mutable state (ring_buffer, speech_frames,
    is_speaking, speech_start_time, silent_frame_count). -/
structure VadState where
  ringBuffer : List (Frame × Bool)
  speechFrames : List Frame
  isSpeaking : Bool
  speechStart : Nat
  silentCount : Nat
deriving DecidableEq, Repr

/-- State at the top of the capture loop. -/
def initState : VadState :=
  { ringBuffer := [], speechFrames := [], isSpeaking := false,
    speechStart := 0, silentCount := 0 }

/-- deque(maxlen=SPEECH_START_FRAMES).append: drop from the left on overflow. -/
def pushRing (rb : List (Frame × Bool)) (x : Frame × Bool) : List (Frame × Bool) :=
  let r := rb ++ [x]
  r.drop (r.length - SPEECH_START_FRAMES)

/-- voiced_count = sum(1 for _, v in ring_buffer if v). -/
def voicedCount (rb : List (Frame × Bool)) : Nat := rb.countP fun p => p.2

/-- Events observable from one capture-loop iteration.  speechStart and
    speechEnd are the dispatched events of the source; segClosed records the
    finalized segment (the local speech_frames and duration at termination),
    and forward records the segment actually handed to transcription. -/
inductive VadEvent
  | speechStart
  | speechEnd (durMs : Nat)
  | segClosed (frames : List Frame) (durMs : Nat)
  | forward (frames : List Frame) (durMs : Nat)
deriving DecidableEq, Repr

/-- The transcription admission filter at segment finalization: forward
    unless the segment is too short, too quiet on average, or the output
    device is carrying signal. -/
def gateForwards (durMs : Nat) (frames : List Frame) (systemAudio : Bool) : Bool :=
  !(decide (durMs < MIN_SPEECH_DURATION_MS)) && !(avgEnergyBelowThreshold frames) && !systemAudio

/-- One iteration of the capture loop body (voice_listener.py lines 239-337). -/
def step (st : VadState) (e : FrameEvent) : VadState × List VadEvent :=
  if e.muted then
    if st.isSpeaking then
      ({ ringBuffer := [], speechFrames := [], isSpeaking := false,
         speechStart := st.speechStart, silentCount := 0 }, [])
    else (st, [])
  else
    let voiced := isVoicedFrame e
    if !st.isSpeaking then
      let rb := pushRing st.ringBuffer (e.samples, voiced)
      if SPEECH_START_FRAMES ≤ voicedCount rb then
        ({ ringBuffer := [], speechFrames := rb.map fun p => p.1, isSpeaking := true,
           speechStart := e.now, silentCount := 0 }, [.speechStart])
      else ({ st with ringBuffer := rb }, [])
    else
      let frames := st.speechFrames ++ [e.samples]
      let silent := if voiced then 0 else st.silentCount + 1
      let dur := e.now - st.speechStart
      if SILENCE_END_FRAMES ≤ silent ∨ MAX_SPEECH_DURATION_MS ≤ dur then
        ({ ringBuffer := [], speechFrames := [], isSpeaking := false,
           speechStart := st.speechStart, silentCount := 0 },
         [.speechEnd dur, .segClosed frames dur] ++
           (if gateForwards dur frames e.systemAudio then [.forward frames dur] else []))
      else
        ({ st with speechFrames := frames, silentCount := silent }, [])

/-- Run the capture loop over a stream of frame events, collecting the
    emitted events in order. -/
def runFrom (st : VadState) : List FrameEvent → VadState × List VadEvent
  | [] => (st, [])
  | e :: es =>
    let r := step st e
    let rest := runFrom r.1 es
    (rest.1, r.2 ++ rest.2)

/- ---------------------------------------------------------------------
   Subtitle splitter (_split_subtitles, main.py lines 638-683).
   --------------------------------------------------------------------- -/

/-- max_len default of _split_subtitles. -/
def MAX_SUBTITLE_LEN : Nat := 30

/-- Sentence-terminal punctuation of the first splitting pass. -/
def isSentPunct (c : Char) : Bool :=
  c = '。' || c = '！' || c = '？' || c = '!' || c = '?'

/-- Clause-level punctuation of the fallback splitting pass. -/
def isClausePunct (c : Char) : Bool :=
  c = '，' || c = ',' || c = '、' || c = '；' || c = ';'

/-- Scanner for the lazy group of the markdown-marker pattern: positioned
    right after the opening stars, collect non-newline characters until a
    closing star is seen at offset at least one; fail on a newline or the
    end of input. -/
def groupScan (acc : Str) : Str → Option (Str × Str)
  | [] => none
  | c :: rest =>
    if acc ≠ [] && c = '*' then some (acc.reverse, c :: rest)
    else if c = '\n' then none
    else groupScan (c :: acc) rest

/-- Greedy trailing stars of the markdown-marker pattern: two if available,
    else one. -/
def eatStars : Str → Str
  | '*' :: '*' :: rest => rest
  | '*' :: rest => rest
  | rest => rest

/-- Try to match the markdown-marker pattern at the head of the string:
    one or two greedy opening stars, a lazy non-newline group, one or two
    greedy closing stars.  Returns the group and the remainder after the
    match.  Two opening stars are tried first; on failure the pattern
    backtracks to a single opening star, whose group then starts at the
    second star. -/
def matchMd : Str → Option (Str × Str)
  | [] => none
  | [_] => none
  | c1 :: c2 :: rest2 =>
    if c1 = '*' then
      if c2 = '*' then
        match groupScan [] rest2 with
        | some (g, r) => some (g, eatStars r)
        | none =>
          match groupScan [] (c2 :: rest2) with
          | some (g, r) => some (g, eatStars r)
          | none => none
      else
        match groupScan [] (c2 :: rest2) with
        | some (g, r) => some (g, eatStars r)
        | none => none
    else none

/-- Strip markdown bold/italic markers: replace every occurrence of the
    marker pattern by its group, scanning left to right.  The fuel is the
    input length; every step consumes at least one character, so the fuel
    never runs out on the wrapper's call. -/
def mdStripF : Nat → Str → Str
  | 0, s => s
  | _ + 1, [] => []
  | n + 1, c :: rest =>
    match matchMd (c :: rest) with
    | some (g, r) => g ++ mdStripF n r
    | none => c :: mdStripF n rest

/-- re.sub of the markdown-marker pattern with the group as replacement. -/
def mdStrip (s : Str) : Str := mdStripF s.length s

/-- text.split of a newline, accumulator-style. -/
def splitNlGo (acc : Str) : Str → List Str
  | [] => [acc.reverse]
  | c :: rest =>
    if c = '\n' then acc.reverse :: splitNlGo [] rest else splitNlGo (c :: acc) rest

/-- Python text.split on newline characters. -/
def splitOnNl (s : Str) : List Str := splitNlGo [] s

/-- Split after every sentence-terminal punctuation character, consuming
    any following whitespace as part of the separator.  The fuel is the
    input length; every step consumes at least one character. -/
def sentGo : Nat → Str → Str → List Str
  | 0, acc, _ => [acc.reverse]
  | _ + 1, acc, [] => [acc.reverse]
  | n + 1, acc, c :: rest =>
    if isSentPunct c then ((c :: acc).reverse) :: sentGo n [] (dropWs rest)
    else sentGo n (c :: acc) rest

/-- The sentence-level re.split of _split_subtitles. -/
def sentenceSplit (s : Str) : List Str := sentGo s.length [] s

/-- Split after every clause punctuation character (consuming following
    whitespace) or after every adjacent pair of em-dashes.  prev is the
    character immediately before the current position; after a punctuation
    separator it is reset, since neither the punctuation nor stripped
    whitespace is an em-dash and so the two-character lookbehind cannot
    match across that separator. -/
def clauseGo : Nat → Option Char → Str → Str → List Str
  | 0, _, acc, _ => [acc.reverse]
  | _ + 1, _, acc, [] => [acc.reverse]
  | n + 1, prev, acc, c :: rest =>
    if isClausePunct c then ((c :: acc).reverse) :: clauseGo n none [] (dropWs rest)
    else if c = '—' ∧ prev = some '—' then
      ((c :: acc).reverse) :: clauseGo n (some c) [] rest
    else clauseGo n (some c) (c :: acc) rest

/-- The clause-level re.split of _split_subtitles. -/
def clauseSplit (s : Str) : List Str := clauseGo s.length none [] s

/-- Greedy packing of clause parts up to MAX_SUBTITLE_LEN, mirroring the
    current/append loop of the source. -/
def greedyPack (current : Str) : List Str → List Str
  | [] => if current = [] then [] else [current]
  | p :: ps =>
    if current ≠ [] ∧ MAX_SUBTITLE_LEN < current.length + p.length then
      current :: greedyPack p ps
    else greedyPack (current ++ p) ps

/-- Per-sentence processing of _split_subtitles: strip, keep short
    sentences whole, clause-split and pack long ones. -/
def processSentence (sentence : Str) : List Str :=
  let s := pyStrip sentence
  if s = [] then []
  else if s.length ≤ MAX_SUBTITLE_LEN then [s]
  else
    let parts := ((clauseSplit s).map pyStrip).filter fun p => p ≠ []
    greedyPack [] parts

/-- Per-paragraph processing of _split_subtitles. -/
def processPara (para : Str) : List Str :=
  if para.length ≤ MAX_SUBTITLE_LEN then [para]
  else (sentenceSplit para).flatMap processSentence

/-- _split_subtitles: markdown strip, paragraph split, sentence split,
    clause-level greedy packing; falls back to the whole (markdown-stripped)
    text when no segment was produced. -/
def splitSubtitles (text : Str) : List Str :=
  let t := mdStrip text
  let paragraphs := ((splitOnNl t).map pyStrip).filter fun p => p ≠ []
  let segments := paragraphs.flatMap processPara
  if segments = [] then [t] else segments

/- ---------------------------------------------------------------------
   Orchestrator (main.py): self-echo filter, voice-input handler,
   response-loop gate, segment playback with interruption handling.
   --------------------------------------------------------------------- -/

/-- The fixed Whisper-hallucination set of _handle_voice_input. -/
def HALLUCINATIONS : List Str :=
  [str "谢谢观看", str "感谢观看", str "thank you for watching",
   str "请不吝点赞", str "字幕由", str "subtitles by",
   str "thanks for watching", str "thank you", str "thank you.",
   str "you", str "bye", str "bye.", str "the end", str "the end.",
   str "嗯", str "啊", str "哦", str "呃",
   str "...", str "。"]

/-- text.lower().strip(" .。") -/
def normalizeForHallucination (t : Str) : Str := pyStripChars (str " .。") (pyLower t)

/-- The hallucination pre-filter applied to the whitespace-stripped text:
    normalized text in the set, or fewer than two characters. -/
def hallucinationBlocked (text : Str) : Bool :=
  normalizeForHallucination text ∈ HALLUCINATIONS || decide (text.length < 2)

/-- _is_self_echo (main.py lines 304-320): substring in either direction
    after lowercasing and stripping, or distinct-character overlap ratio
    above 0.7 (compared exactly: k/n > 7/10 iff 7n < 10k). -/
def isSelfEcho (transcription currentTts : Str) : Bool :=
  if currentTts = [] then false
  else
    let t := pyStrip (pyLower transcription)
    let c := pyStrip (pyLower currentTts)
    if containsSub t c || containsSub c t then true
    else
      let tChars := t.dedup
      let cChars := c.dedup
      if tChars = [] then false
      else decide (7 * tChars.length < 10 * (tChars.filter fun ch => ch ∈ cChars).length)

/-- What _handle_voice_input does with one transcription event. -/
inductive VoiceAction
  | discard
  | interrupt (text : Str)
  | enqueue (text : Str)
deriving DecidableEq, Repr

/-- _handle_voice_input (main.py lines 322-360): strip; drop empty text;
    drop hallucinations and sub-two-character texts; while speaking drop
    self-echo and turn anything else into the pending interruption;
    otherwise enqueue as a voice stimulus. -/
def handleVoiceInput (rawText : Str) (isSpeaking : Bool) (currentTts : Str) : VoiceAction :=
  let text := pyStrip rawText
  if text = [] then .discard
  else if hallucinationBlocked text then .discard
  else if isSpeaking && isSelfEcho text currentTts then .discard
  else if isSpeaking then .interrupt text
  else .enqueue text

/-- One queued stimulus; the source key is absent for danmaku messages. -/
structure Stim where
  username : Str
  text : Str
  source : Option Str
deriving DecidableEq, Repr

/-- batch[0].get of the source key with default danmaku. -/
def stimSource (m : Stim) : Str := m.source.getD (str "danmaku")

/-- is_voice: the drained batch is classified by its first element. -/
def turnIsVoice (first : Stim) : Bool := decide (stimSource first = str "voice")

/-- The active-mode gate of _response_loop (main.py lines 530-538): a
    non-voice batch is dropped whole when the system is not active;
    otherwise the batch passes through unmodified. -/
def respondGate (first : Stim) (rest : List Stim) (isActive : Bool) : Option (List Stim) :=
  if !turnIsVoice first && !isActive then none else some (first :: rest)

/-- Python " ".join. -/
def joinSp : List Str → Str
  | [] => []
  | [x] => x
  | x :: xs => x ++ ' ' :: joinSp xs

/-- The segment playback loop of _response_loop (main.py lines 576-624),
    restricted to what is spoken.  pending gives the content of the
    pending-interruption slot as observed at the boundary after segment i;
    collab models _handle_interruption, receiving the joined remaining
    text and the interruption and returning the decision reply (none on
    failure).  On a consumed interruption the collaborator reply (split
    into subtitles, when non-empty) is spoken and the loop stops; the
    remaining original segments are never visited. -/
def playSegments (pending : Nat → Option Str) (collab : Str → Str → Option Str)
    (isVoice : Bool) : Nat → List Str → List Str
  | _, [] => []
  | i, s :: rest =>
    s ::
      (match pending i with
       | some intr =>
         if intr ≠ [] ∧ isVoice then
           match collab (joinSp rest) intr with
           | some r => if r = [] then [] else splitSubtitles r
           | none => []
         else playSegments pending collab isVoice (i + 1) rest
       | none => playSegments pending collab isVoice (i + 1) rest)

/- ---------------------------------------------------------------------
   Observation helpers and concrete streams used by the theorems.
   --------------------------------------------------------------------- -/

/-- The finalized segments of an event trace, as (frame count, duration ms). -/
def closedSegments (evs : List VadEvent) : List (Nat × Nat) :=
  evs.filterMap fun ev =>
    match ev with
    | .segClosed frames dur => some (frames.length, dur)
    | _ => none

/-- The segments handed to the transcription collaborator, with durations. -/
def forwardedSegments (evs : List VadEvent) : List (List Frame × Nat) :=
  evs.filterMap fun ev =>
    match ev with
    | .forward frames dur => some (frames, dur)
    | _ => none

/-- Whether a string contains two adjacent em-dashes (a clause split point). -/
def hasDoubleDash : Str → Bool
  | [] => false
  | [_] => false
  | a :: b :: rest => (a = '—' && b = '—') || hasDoubleDash (b :: rest)

/-- A continuously voiced, unmuted frame stream under idealized timing:
    k frames following frame index i, the j-th carrying timestamp
    s + 30 * (i + j + 1). -/
def voicedEvs (s : Nat) : Nat → Nat → List FrameEvent
  | _, 0 => []
  | i, k + 1 =>
    { muted := false, samples := [1000], vadSpeech := true, systemAudio := false,
      now := s + FRAME_DURATION_MS * (i + 1) } :: voicedEvs s (i + 1) k

/-- A loud voiced frame event at timestamp t. -/
def voicedAt (t : Nat) : FrameEvent :=
  { muted := false, samples := [1000], vadSpeech := true, systemAudio := false, now := t }

/-- A silent frame event at timestamp t. -/
def silentAt (t : Nat) : FrameEvent :=
  { muted := false, samples := [0], vadSpeech := false, systemAudio := false, now := t }

/-- A muted iteration at timestamp t (the frame content is discarded). -/
def mutedAt (t : Nat) : FrameEvent :=
  { muted := true, samples := [1000], vadSpeech := true, systemAudio := false, now := t }

/-- Ideal-timing stream for claim C8: eight voiced frames (onset at the
    eighth) followed by thirty silent frames (termination at the thirtieth). -/
def c8events : List FrameEvent :=
  ((List.range 8).map fun i => voicedAt (FRAME_DURATION_MS * (i + 1))) ++
  ((List.range 30).map fun i => silentAt (FRAME_DURATION_MS * (8 + i + 1)))

/- ---------------------------------------------------------------------
   Helper lemmas about the capture-loop state machine.
   --------------------------------------------------------------------- -/

lemma step_muted (st : VadState) (e : FrameEvent) (hm : e.muted = true) :
    step st e =
      (if st.isSpeaking then
        { ringBuffer := [], speechFrames := [], isSpeaking := false,
          speechStart := st.speechStart, silentCount := 0 }
       else st, []) := by
  cases hs : st.isSpeaking <;> simp [step, hm, hs]

lemma step_idle (st : VadState) (e : FrameEvent) (hm : e.muted = false)
    (hs : st.isSpeaking = false) :
    step st e =
      (if SPEECH_START_FRAMES ≤ voicedCount (pushRing st.ringBuffer (e.samples, isVoicedFrame e))
       then
        ({ ringBuffer := [],
           speechFrames := (pushRing st.ringBuffer (e.samples, isVoicedFrame e)).map
             (fun p => p.1),
           isSpeaking := true, speechStart := e.now, silentCount := 0 },
         [VadEvent.speechStart])
       else
        ({ st with ringBuffer := pushRing st.ringBuffer (e.samples, isVoicedFrame e) }, [])) := by
  simp [step, hm, hs]

lemma step_speaking (st : VadState) (e : FrameEvent) (hm : e.muted = false)
    (hs : st.isSpeaking = true) :
    step st e =
      (if SILENCE_END_FRAMES ≤ (if isVoicedFrame e then 0 else st.silentCount + 1)
          ∨ MAX_SPEECH_DURATION_MS ≤ e.now - st.speechStart
       then
        ({ ringBuffer := [], speechFrames := [], isSpeaking := false,
           speechStart := st.speechStart, silentCount := 0 },
         [VadEvent.speechEnd (e.now - st.speechStart),
          VadEvent.segClosed (st.speechFrames ++ [e.samples]) (e.now - st.speechStart)] ++
           (if gateForwards (e.now - st.speechStart) (st.speechFrames ++ [e.samples]) e.systemAudio
            then [VadEvent.forward (st.speechFrames ++ [e.samples]) (e.now - st.speechStart)]
            else []))
       else
        ({ st with speechFrames := st.speechFrames ++ [e.samples],
                   silentCount := if isVoicedFrame e then 0 else st.silentCount + 1 }, [])) := by
  simp [step, hm, hs]

lemma runFrom_nil (st : VadState) : runFrom st [] = (st, []) := rfl

lemma runFrom_cons (st : VadState) (e : FrameEvent) (es : List FrameEvent) :
    runFrom st (e :: es) =
      ((runFrom (step st e).1 es).1, (step st e).2 ++ (runFrom (step st e).1 es).2) := rfl

lemma runFrom_append (st : VadState) (es1 es2 : List FrameEvent) :
    runFrom st (es1 ++ es2) =
      ((runFrom (runFrom st es1).1 es2).1,
       (runFrom st es1).2 ++ (runFrom (runFrom st es1).1 es2).2) := by
  induction es1 generalizing st with
  | nil => simp [runFrom]
  | cons e es ih => simp [runFrom_cons, ih, List.append_assoc]

lemma voicedCount_pushRing_le (rb : List (Frame × Bool)) (f : Frame) (v : Bool) :
    voicedCount (pushRing rb (f, v)) ≤ voicedCount rb + (if v then 1 else 0) := by
  simp only [voicedCount, pushRing]
  have h1 : ((rb ++ [(f, v)]).drop ((rb ++ [(f, v)]).length - SPEECH_START_FRAMES)).countP
      (fun p => p.2) ≤ (rb ++ [(f, v)]).countP (fun p => p.2) :=
    List.Sublist.countP_le _ (List.drop_sublist _ _)
  have h2 : (rb ++ [(f, v)]).countP (fun p => p.2) =
      rb.countP (fun p => p.2) + (if v then 1 else 0) := by
    simp [List.countP_append, List.countP_cons]
  omega

lemma pushRing_length_le (rb : List (Frame × Bool)) (x : Frame × Bool) :
    (pushRing rb x).length ≤ SPEECH_START_FRAMES := by
  unfold pushRing
  simp [List.length_drop]
  omega

lemma voicedCount_le_length (rb : List (Frame × Bool)) : voicedCount rb ≤ rb.length :=
  List.countP_le_length _

lemma no_onset_run (es : List FrameEvent) : ∀ (st : VadState), st.isSpeaking = false →
    voicedCount st.ringBuffer + es.countP (fun e => isVoicedFrame e) < SPEECH_START_FRAMES →
    (runFrom st es).1.isSpeaking = false ∧ (runFrom st es).2 = [] := by
  induction es with
  | nil => intro st hs _; exact ⟨hs, rfl⟩
  | cons e es ih =>
    intro st hs hcount
    have hsplit : (e :: es).countP (fun e => isVoicedFrame e) =
        es.countP (fun e => isVoicedFrame e) + (if isVoicedFrame e then 1 else 0) := by
      simp [List.countP_cons]
    rw [runFrom_cons]
    cases hm : e.muted with
    | true =>
      rw [step_muted st e hm, if_neg (by simp [hs])]
      have h := ih st hs (by omega)
      simpa using h
    | false =>
      rw [step_idle st e hm hs]
      have hle := voicedCount_pushRing_le st.ringBuffer e.samples (isVoicedFrame e)
      simp only [hsplit] at hcount
      have hlt : voicedCount (pushRing st.ringBuffer (e.samples, isVoicedFrame e)) <
          SPEECH_START_FRAMES := by omega
      rw [if_neg (by omega)]
      have h := ih { st with ringBuffer := pushRing st.ringBuffer (e.samples, isVoicedFrame e) }
        (by simpa using hs) (by simpa using by omega)
      simpa using h

/-- C1: while no segment is open, a segment opens (speech_start fires and the
    buffered frames seed it) at a frame exactly when the voiced count of the
    onset ring buffer, after appending that frame, reaches
    SPEECH_START_FRAMES; and a stream holding fewer than SPEECH_START_FRAMES
    voiced frames in total never creates a segment (no event is ever
    emitted and the machine never enters the speaking state). -/
theorem speech_onset_exact :
    (∀ (st : VadState) (e : FrameEvent), e.muted = false → st.isSpeaking = false →
      (((step st e).1.isSpeaking = true ∧
        (step st e).2 = [VadEvent.speechStart] ∧
        (step st e).1.speechFrames =
          (pushRing st.ringBuffer (e.samples, isVoicedFrame e)).map (fun p => p.1)) ↔
        SPEECH_START_FRAMES ≤ voicedCount (pushRing st.ringBuffer (e.samples, isVoicedFrame e)))) ∧
    (∀ es : List FrameEvent,
      es.countP (fun e => isVoicedFrame e) < SPEECH_START_FRAMES →
      (runFrom initState es).1.isSpeaking = false ∧ (runFrom initState es).2 = []) := by
  constructor
  · intro st e hm hs
    rw [step_idle st e hm hs]
    by_cases h8 : SPEECH_START_FRAMES ≤
        voicedCount (pushRing st.ringBuffer (e.samples, isVoicedFrame e))
    · simp [h8]
    · simp [h8, hs]
  · intro es h
    exact no_onset_run es initState rfl (by simpa [initState, voicedCount] using h)

/-- Witness for C1: a state with seven voiced frames buffered opens a
    segment on the eighth voiced frame, and a stream with a single voiced
    frame never creates one. -/
theorem speech_onset_exact_witness :
    ((step { ringBuffer := List.replicate 7 ([1000], true), speechFrames := [],
             isSpeaking := false, speechStart := 0, silentCount := 0 }
        (voicedAt 240)).1.isSpeaking = true ∧
     (step { ringBuffer := List.replicate 7 ([1000], true), speechFrames := [],
             isSpeaking := false, speechStart := 0, silentCount := 0 }
        (voicedAt 240)).2 = [VadEvent.speechStart] ∧
     (step { ringBuffer := List.replicate 7 ([1000], true), speechFrames := [],
             isSpeaking := false, speechStart := 0, silentCount := 0 }
        (voicedAt 240)).1.speechFrames =
       (pushRing (List.replicate 7 ([1000], true))
         ((voicedAt 240).samples, isVoicedFrame (voicedAt 240))).map (fun p => p.1)) ∧
    ((runFrom initState [voicedAt 30]).1.isSpeaking = false ∧
     (runFrom initState [voicedAt 30]).2 = []) := by
  refine ⟨(speech_onset_exact.1 _ _ rfl rfl).mpr (by decide),
    speech_onset_exact.2 [voicedAt 30] (by decide)⟩

/-- C3 (amended): a muted iteration emits no event and appends nothing; if a
    segment was open it resets the assembler to the clean not-speaking state
    (empty onset buffer, empty frame list, zero silence count); if no
    segment was open the whole state, including whatever frames sit in the
    onset ring buffer from before the mute, is left untouched. -/
theorem mute_discards_and_resets :
    ∀ (st : VadState) (e : FrameEvent), e.muted = true →
      (step st e).2 = [] ∧
      (st.isSpeaking = true →
        (step st e).1 = { ringBuffer := [], speechFrames := [], isSpeaking := false,
                          speechStart := st.speechStart, silentCount := 0 }) ∧
      (st.isSpeaking = false → (step st e).1 = st) := by
  intro st e hm
  rw [step_muted st e hm]
  cases hs : st.isSpeaking <;> simp [hs]

/-- Witness for C3 (amended): a concrete muted iteration while a segment is
    open resets the assembler and emits nothing. -/
theorem mute_discards_and_resets_witness :
    (step { ringBuffer := [], speechFrames := [[1000]], isSpeaking := true,
            speechStart := 30, silentCount := 2 } (mutedAt 90)).2 = [] ∧
    (step { ringBuffer := [], speechFrames := [[1000]], isSpeaking := true,
            speechStart := 30, silentCount := 2 } (mutedAt 90)).1 =
      { ringBuffer := [], speechFrames := [], isSpeaking := false,
        speechStart := 30, silentCount := 0 } := by
  have h := mute_discards_and_resets
    { ringBuffer := [], speechFrames := [[1000]], isSpeaking := true,
      speechStart := 30, silentCount := 2 } (mutedAt 90) rfl
  exact ⟨h.1, h.2.1 rfl⟩

/-- C3 counterexample: after one unmuted voiced frame followed by a muted
    iteration (a mute that began while no segment was open), the assembler
    state at the moment of unmuting is not the clean initial state: the
    onset ring buffer still holds the pre-mute frame. -/
theorem mute_clean_state_counterexample :
    (runFrom initState [voicedAt 30, mutedAt 60]).1 ≠ initState ∧
    (runFrom initState [voicedAt 30, mutedAt 60]).1.ringBuffer ≠ [] := by decide

lemma isVoicedFrame_voicedEv (t : Nat) :
    isVoicedFrame { muted := false, samples := [1000], vadSpeech := true,
                    systemAudio := false, now := t } = true := by
  norm_num [isVoicedFrame, rmsBelowThreshold, sumSq]

lemma voicedRun_noEnd (s : Nat) : ∀ (k i : Nat) (f : List Frame), i + k ≤ 999 →
    runFrom { ringBuffer := [], speechFrames := f, isSpeaking := true,
              speechStart := s, silentCount := 0 } (voicedEvs s i k) =
      ({ ringBuffer := [], speechFrames := f ++ List.replicate k [1000], isSpeaking := true,
         speechStart := s, silentCount := 0 }, []) := by
  intro k
  induction k with
  | zero => intro i f _; simp [voicedEvs, runFrom]
  | succ k ih =>
    intro i f h
    rw [voicedEvs, runFrom_cons]
    rw [step_speaking _ _ rfl rfl]
    rw [isVoicedFrame_voicedEv]
    have hdur : s + FRAME_DURATION_MS * (i + 1) - s = FRAME_DURATION_MS * (i + 1) := by omega
    rw [if_neg (by
      simp [hdur, FRAME_DURATION_MS, SILENCE_END_FRAMES, MAX_SPEECH_DURATION_MS]
      omega)]
    have h2 := ih (i + 1) (f ++ [[1000]]) (by omega)
    simp [h2, List.replicate_succ, List.append_assoc]

lemma voicedEvs_snoc (s : Nat) : ∀ (k i : Nat),
    voicedEvs s i (k + 1) =
      voicedEvs s i k ++
        [{ muted := false, samples := [1000], vadSpeech := true, systemAudio := false,
           now := s + FRAME_DURATION_MS * (i + k + 1) }] := by
  intro k
  induction k with
  | zero => intro i; simp [voicedEvs]
  | succ k ih =>
    intro i
    rw [voicedEvs, ih (i + 1)]
    have harith : i + 1 + k + 1 = i + (k + 1) + 1 := by omega
    rw [harith]
    simp [voicedEvs]

/-- C2: while a segment is open, the silence counter resets on voiced frames
    and increments on unvoiced frames, and the segment terminates exactly
    when that (updated) counter reaches SILENCE_END_FRAMES or the elapsed
    duration reaches MAX_SPEECH_DURATION_MS, the speech-end event carrying
    the elapsed duration; in particular a continuously voiced stream under
    ideal 30 ms timing emits nothing for the first 999 frames after onset
    and is force-terminated at the thousandth with duration exactly
    MAX_SPEECH_DURATION_MS. -/
theorem silence_termination_exact :
    (∀ (st : VadState) (e : FrameEvent), e.muted = false → st.isSpeaking = true →
      (((step st e).1.isSpeaking = false) ↔
        (SILENCE_END_FRAMES ≤ (if isVoicedFrame e then 0 else st.silentCount + 1) ∨
         MAX_SPEECH_DURATION_MS ≤ e.now - st.speechStart)) ∧
      ((step st e).1.isSpeaking = true →
        (step st e).1.silentCount = (if isVoicedFrame e then 0 else st.silentCount + 1) ∧
        (step st e).2 = []) ∧
      ((step st e).1.isSpeaking = false →
        VadEvent.speechEnd (e.now - st.speechStart) ∈ (step st e).2)) ∧
    (∀ (s : Nat) (f : List Frame),
      (∀ k, k < 1000 →
        (runFrom { ringBuffer := [], speechFrames := f, isSpeaking := true,
                   speechStart := s, silentCount := 0 } (voicedEvs s 0 k)).2 = []) ∧
      VadEvent.speechEnd MAX_SPEECH_DURATION_MS ∈
        (runFrom { ringBuffer := [], speechFrames := f, isSpeaking := true,
                   speechStart := s, silentCount := 0 } (voicedEvs s 0 1000)).2) := by
  constructor
  · intro st e hm hs
    rw [step_speaking st e hm hs]
    by_cases hc : SILENCE_END_FRAMES ≤ (if isVoicedFrame e then 0 else st.silentCount + 1) ∨
        MAX_SPEECH_DURATION_MS ≤ e.now - st.speechStart
    · simp [hc]
    · simp [hc, hs]
  · intro s f
    constructor
    · intro k hk
      rw [voicedRun_noEnd s k 0 f (by omega)]
    · have h999 : (1000 : Nat) = 999 + 1 := by omega
      rw [h999, voicedEvs_snoc s 999 0, runFrom_append,
        voicedRun_noEnd s 999 0 f (by omega)]
      rw [runFrom_cons]
      rw [step_speaking _ _ rfl rfl]
      rw [isVoicedFrame_voicedEv]
      have hdur : s + FRAME_DURATION_MS * (0 + 999 + 1) - s = MAX_SPEECH_DURATION_MS := by
        simp only [FRAME_DURATION_MS, MAX_SPEECH_DURATION_MS]; omega
      rw [hdur]
      rw [if_pos (Or.inr (le_refl _))]
      simp only [runFrom_nil, List.nil_append, List.append_nil]
      exact List.mem_append_left _ (List.mem_cons_self _ _)

/-- Witness for C2: a concrete silent frame that brings the counter to
    SILENCE_END_FRAMES closes the segment, and the continuously voiced
    stream statements instantiated at a concrete start time. -/
theorem silence_termination_exact_witness :
    (((step { ringBuffer := [], speechFrames := List.replicate 28 [1000], isSpeaking := true,
              speechStart := 0, silentCount := 29 } (silentAt 900)).1.isSpeaking = false) ↔
      (SILENCE_END_FRAMES ≤
        (if isVoicedFrame (silentAt 900) then 0
         else ({ ringBuffer := [], speechFrames := List.replicate 28 [1000], isSpeaking := true,
                 speechStart := 0, silentCount := 29 } : VadState).silentCount + 1) ∨
       MAX_SPEECH_DURATION_MS ≤ (silentAt 900).now - 0)) ∧
    ((runFrom { ringBuffer := [], speechFrames := [], isSpeaking := true,
                speechStart := 60, silentCount := 0 } (voicedEvs 60 0 5)).2 = []) ∧
    VadEvent.speechEnd MAX_SPEECH_DURATION_MS ∈
      (runFrom { ringBuffer := [], speechFrames := [], isSpeaking := true,
                 speechStart := 60, silentCount := 0 } (voicedEvs 60 0 1000)).2 := by
  refine ⟨(silence_termination_exact.1 _ _ rfl rfl).1,
    (silence_termination_exact.2 60 []).1 5 (by omega),
    (silence_termination_exact.2 60 []).2⟩

lemma closedSegments_nil : closedSegments [] = [] := rfl

lemma closedSegments_append (a b : List VadEvent) :
    closedSegments (a ++ b) = closedSegments a ++ closedSegments b := by
  simp [closedSegments, List.filterMap_append]

lemma closedSegments_onset : closedSegments [VadEvent.speechStart] = [] := rfl

lemma segclosed_invariant : ∀ (es : List FrameEvent) (st : VadState) (m : Nat),
    (∀ j (h : j < es.length), es[j].now = FRAME_DURATION_MS * (m + j + 1)) →
    (st.isSpeaking = true →
      st.speechStart + FRAME_DURATION_MS * st.speechFrames.length =
        FRAME_DURATION_MS * SPEECH_START_FRAMES + FRAME_DURATION_MS * m ∧
      st.speechStart ≤ FRAME_DURATION_MS * m) →
    ∀ p ∈ closedSegments (runFrom st es).2,
      FRAME_DURATION_MS * p.1 = p.2 + FRAME_DURATION_MS * SPEECH_START_FRAMES := by
  intro es
  induction es with
  | nil => intro st m _ _ p hp; simp [runFrom_nil, closedSegments_nil] at hp
  | cons e es ih =>
    intro st m hts hinv p hp
    have hnow : e.now = FRAME_DURATION_MS * (m + 1) := by
      have h0 := hts 0 (by simp)
      simpa using h0
    have hts' : ∀ j (h : j < es.length), es[j].now = FRAME_DURATION_MS * ((m + 1) + j + 1) := by
      intro j hj
      have hj1 := hts (j + 1) (by simpa using Nat.succ_lt_succ hj)
      have harith : m + (j + 1) + 1 = (m + 1) + j + 1 := by omega
      rw [List.getElem_cons_succ, harith] at hj1
      exact hj1
    cases hm : e.muted with
    | true =>
      rw [runFrom_cons, step_muted st e hm] at hp
      simp only [closedSegments_append, closedSegments_nil, List.nil_append] at hp
      by_cases hs : st.isSpeaking = true
      · rw [if_pos hs] at hp
        exact ih _ (m + 1) hts' (by intro habs; simp at habs) p hp
      · rw [if_neg hs] at hp
        exact ih _ (m + 1) hts' (fun habs => absurd habs hs) p hp
    | false =>
      by_cases hs : st.isSpeaking = true
      · rw [runFrom_cons, step_speaking st e hm hs] at hp
        by_cases hterm : SILENCE_END_FRAMES ≤ (if isVoicedFrame e then 0 else st.silentCount + 1) ∨
            MAX_SPEECH_DURATION_MS ≤ e.now - st.speechStart
        · rw [if_pos hterm] at hp
          simp only [closedSegments_append, List.mem_append] at hp
          rcases hp with (hp | hp) | hp
          · have hcs : closedSegments
                [VadEvent.speechEnd (e.now - st.speechStart),
                 VadEvent.segClosed (st.speechFrames ++ [e.samples]) (e.now - st.speechStart)] =
                [((st.speechFrames ++ [e.samples]).length, e.now - st.speechStart)] := by
              simp [closedSegments]
            rw [hcs] at hp
            simp only [List.mem_singleton] at hp
            obtain ⟨h1, h2⟩ := hinv hs
            subst hp
            simp only [List.length_append, List.length_singleton, hnow]
            simp only [FRAME_DURATION_MS, SPEECH_START_FRAMES] at h1 h2 ⊢
            omega
          · have hcs : closedSegments
                (if gateForwards (e.now - st.speechStart) (st.speechFrames ++ [e.samples])
                     e.systemAudio = true
                 then [VadEvent.forward (st.speechFrames ++ [e.samples]) (e.now - st.speechStart)]
                 else []) = [] := by
              by_cases hg : gateForwards (e.now - st.speechStart) (st.speechFrames ++ [e.samples])
                  e.systemAudio <;>
                simp [closedSegments, hg]
            rw [hcs] at hp
            simp at hp
          · exact ih _ (m + 1) hts' (by intro habs; simp at habs) p hp
        · rw [if_neg hterm] at hp
          simp only [closedSegments_append, closedSegments_nil, List.nil_append] at hp
          refine ih _ (m + 1) hts' ?_ p hp
          intro _
          obtain ⟨h1, h2⟩ := hinv hs
          simp only [List.length_append, List.length_singleton]
          simp only [FRAME_DURATION_MS, SPEECH_START_FRAMES] at h1 h2 ⊢
          omega
      · have hs' : st.isSpeaking = false := by simpa using hs
        rw [runFrom_cons, step_idle st e hm hs'] at hp
        by_cases h8 : SPEECH_START_FRAMES ≤
            voicedCount (pushRing st.ringBuffer (e.samples, isVoicedFrame e))
        · rw [if_pos h8] at hp
          simp only [closedSegments_append, closedSegments_onset, List.nil_append] at hp
          refine ih _ (m + 1) hts' ?_ p hp
          intro _
          have hle := pushRing_length_le st.ringBuffer (e.samples, isVoicedFrame e)
          have hcl := voicedCount_le_length (pushRing st.ringBuffer (e.samples, isVoicedFrame e))
          have hlen : (pushRing st.ringBuffer (e.samples, isVoicedFrame e)).length =
              SPEECH_START_FRAMES := by omega
          constructor
          · simp only [List.length_map, hlen, hnow]
            simp only [FRAME_DURATION_MS, SPEECH_START_FRAMES]
            omega
          · simp only [hnow]
            omega
        · rw [if_neg h8] at hp
          simp only [closedSegments_append, closedSegments_nil, List.nil_append] at hp
          refine ih _ (m + 1) hts' ?_ p hp
          intro habs
          simp only [] at habs
          exact absurd habs hs

/-- C8 counterexample: under ideal 30 ms timing (timestamps 30*(j+1)), eight
    voiced frames followed by thirty silent ones finalize one segment with
    38 frames but a measured duration of only 900 ms; 38 frames differ from
    900 ms / 30 ms = 30 frames by eight frames, not by at most one. -/
theorem segment_framecount_counterexample :
    c8events.map (fun e => e.now) =
      (List.range c8events.length).map (fun j => FRAME_DURATION_MS * (j + 1)) ∧
    closedSegments (runFrom initState c8events).2 = [(38, 900)] ∧
    900 + FRAME_DURATION_MS < FRAME_DURATION_MS * 38 := by decide

/-- C8 (amended): under ideal timing, every finalized segment's frame count
    equals its duration divided by the frame length plus the
    SPEECH_START_FRAMES onset-buffer frames seeded at speech start, exactly:
    30 ms * frame_count = duration + 30 ms * 8. -/
theorem segment_framecount_amended :
    ∀ es : List FrameEvent,
      es.map (fun e => e.now) =
        (List.range es.length).map (fun j => FRAME_DURATION_MS * (j + 1)) →
      ∀ p ∈ closedSegments (runFrom initState es).2,
        FRAME_DURATION_MS * p.1 = p.2 + FRAME_DURATION_MS * SPEECH_START_FRAMES := by
  intro es hmap p hp
  have hpt : ∀ j (h : j < es.length), es[j].now = FRAME_DURATION_MS * (0 + j + 1) := by
    intro j hj
    have h1 := congrArg (fun l => l[j]?) hmap
    simp only [List.getElem?_map, List.getElem?_eq_getElem hj,
      List.getElem?_range (by simpa using hj), Option.map_some] at h1
    simpa using h1
  exact segclosed_invariant es initState 0 hpt
    (by intro habs; simp [initState] at habs) p hp

/-- Witness for C8 (amended): the concrete ideal-timing stream of the
    counterexample satisfies the amended relation, 30 * 38 = 900 + 30 * 8. -/
theorem segment_framecount_amended_witness :
    FRAME_DURATION_MS * 38 = 900 + FRAME_DURATION_MS * SPEECH_START_FRAMES :=
  segment_framecount_amended c8events (by decide) (38, 900) (by decide)

/-- C6: at a finalization step, the segment is handed to transcription if
    and only if its duration is at least MIN_SPEECH_DURATION_MS, its average
    RMS energy over all frames is not below ENERGY_THRESHOLD (the same floor
    as the per-frame gate), and the output-device activity probe reports no
    playback signal; a segment failing any condition is never forwarded. -/
theorem transcription_gate_iff :
    ∀ (st : VadState) (e : FrameEvent), e.muted = false → st.isSpeaking = true →
      (SILENCE_END_FRAMES ≤ (if isVoicedFrame e then 0 else st.silentCount + 1) ∨
       MAX_SPEECH_DURATION_MS ≤ e.now - st.speechStart) →
      forwardedSegments (step st e).2 =
        (if MIN_SPEECH_DURATION_MS ≤ e.now - st.speechStart ∧
            avgEnergyBelowThreshold (st.speechFrames ++ [e.samples]) = false ∧
            e.systemAudio = false
         then [(st.speechFrames ++ [e.samples], e.now - st.speechStart)]
         else []) := by
  intro st e hm hs hterm
  rw [step_speaking st e hm hs, if_pos hterm]
  have hiff : gateForwards (e.now - st.speechStart) (st.speechFrames ++ [e.samples])
      e.systemAudio = true ↔
      (MIN_SPEECH_DURATION_MS ≤ e.now - st.speechStart ∧
       avgEnergyBelowThreshold (st.speechFrames ++ [e.samples]) = false ∧
       e.systemAudio = false) := by
    simp [gateForwards, Bool.and_eq_true, Bool.not_eq_true', decide_eq_false_iff_not,
      Nat.not_lt, and_assoc]
  by_cases hg : gateForwards (e.now - st.speechStart) (st.speechFrames ++ [e.samples])
      e.systemAudio = true
  · rw [if_pos (hiff.mp hg)]
    simp [forwardedSegments, hg]
  · rw [if_neg (fun hcond => hg (hiff.mpr hcond))]
    simp only [Bool.not_eq_true] at hg
    simp [forwardedSegments, hg]

/-- Witness for C6: a 29-frame segment of 900 ms with high average energy
    and no competing playback is forwarded with its frames and duration. -/
theorem transcription_gate_iff_witness :
    forwardedSegments (step { ringBuffer := [], speechFrames := List.replicate 28 [1000],
                              isSpeaking := true, speechStart := 0, silentCount := 29 }
        (silentAt 900)).2 =
      [(List.replicate 28 [1000] ++ [[0]], 900)] := by
  have h := transcription_gate_iff
    { ringBuffer := [], speechFrames := List.replicate 28 [1000],
      isSpeaking := true, speechStart := 0, silentCount := 29 } (silentAt 900) rfl rfl (by decide)
  rw [h]
  decide

lemma c5_aux : ∀ (segs : List Str) (k i : Nat) (intr : Str) (pending : Nat → Option Str)
    (collab : Str → Str → Option Str),
    i < segs.length → pending (k + i) = some intr → intr ≠ [] →
    (∀ j, k ≤ j → j < k + i → pending j = none) →
    playSegments pending collab true k segs =
      segs.take (i + 1) ++
        (match collab (joinSp (segs.drop (i + 1))) intr with
         | some r => if r = [] then [] else splitSubtitles r
         | none => []) := by
  intro segs
  induction segs with
  | nil => intro k i intr p c hi _ _ _; simp at hi
  | cons s rest ih =>
    intro k i intr p c hi hp hne hnone
    cases i with
    | zero =>
      have hk : p k = some intr := by simpa using hp
      simp only [playSegments, hk]
      simp [hne]
    | succ i2 =>
      have h0 : p k = none := hnone k (le_refl k) (by omega)
      simp only [playSegments, h0]
      have harith : k + 1 + i2 = k + (i2 + 1) := by omega
      have hp2 : p (k + 1 + i2) = some intr := by rw [harith]; exact hp
      have hnone2 : ∀ j, k + 1 ≤ j → j < k + 1 + i2 → p j = none := by
        intro j h1 h2
        exact hnone j (by omega) (by omega)
      have hrec := ih (k + 1) i2 intr p c (by simpa using Nat.lt_of_succ_lt_succ hi) hp2 hne
        hnone2
      rw [hrec]
      simp [List.take_succ_cons, List.drop_succ_cons]

/-- C5: during voice-sourced playback, at the first segment boundary where a
    (non-empty) pending interruption is present it is consumed: the spoken
    output is exactly the original segments up to and including the current
    one, followed only by the decision collaborator's continuation (split
    into subtitles when non-empty, nothing on failure or empty reply); all
    remaining original segments are discarded, whatever the collaborator
    returns. -/
theorem interruption_discards_rest :
    ∀ (segs : List Str) (i : Nat) (intr : Str) (pending : Nat → Option Str)
      (collab : Str → Str → Option Str),
      i < segs.length → pending i = some intr → intr ≠ [] →
      (∀ j, j < i → pending j = none) →
      playSegments pending collab true 0 segs =
        segs.take (i + 1) ++
          (match collab (joinSp (segs.drop (i + 1))) intr with
           | some r => if r = [] then [] else splitSubtitles r
           | none => []) := by
  intro segs i intr p c hi hp hne hn
  exact c5_aux segs 0 i intr p c hi (by simpa using hp) hne (fun j _ hj => hn j (by omega))

/-- Witness for C5: with three segments and an interruption pending at the
    boundary after the second, the third original segment is never spoken
    and the collaborator's reply is spoken instead. -/
theorem interruption_discards_rest_witness :
    playSegments (fun j => if j = 1 then some (str "stop") else none)
        (fun _ _ => some (str "ok")) true 0 [str "a", str "b", str "c"] =
      [str "a", str "b", str "ok"] := by
  have h := interruption_discards_rest [str "a", str "b", str "c"] 1 (str "stop")
    (fun j => if j = 1 then some (str "stop") else none) (fun _ _ => some (str "ok"))
    (by decide) (by decide) (by decide)
    (by
      intro j hj
      have hj0 : j = 0 := Nat.lt_one_iff.mp hj
      subst hj0
      decide)
  rw [h]
  decide

/-- C7: a drained batch is classified by its first stimulus (well-defined
    for every batch, mixed or not, and independent of the tail); a
    voice-classified Turn is always processed unmodified whatever the
    active flag, and a chat-classified Turn is dropped exactly when the
    system is not active. -/
theorem turn_source_gate :
    ∀ (first : Stim) (rest : List Stim) (isActive : Bool),
      (turnIsVoice first = true → respondGate first rest isActive = some (first :: rest)) ∧
      (turnIsVoice first = false → isActive = false → respondGate first rest isActive = none) ∧
      (turnIsVoice first = false → isActive = true →
        respondGate first rest isActive = some (first :: rest)) ∧
      (∀ rest2 : List Stim,
        (respondGate first rest isActive = none ↔ respondGate first rest2 isActive = none)) := by
  intro first rest isActive
  refine ⟨fun hv => by simp [respondGate, hv],
    fun hv ha => by simp [respondGate, hv, ha],
    fun hv ha => by simp [respondGate, hv, ha],
    fun rest2 => by
      cases hv : turnIsVoice first <;> cases ha : isActive <;> simp [respondGate, hv, ha]⟩

/-- Witness for C7: a voice-sourced Turn passes the gate while inactive; a
    source-less (danmaku) Turn is dropped while inactive. -/
theorem turn_source_gate_witness :
    respondGate { username := str "douvle", text := str "hi", source := some (str "voice") }
        [] false =
      some [{ username := str "douvle", text := str "hi", source := some (str "voice") }] ∧
    respondGate { username := str "u", text := str "hey", source := none } [] false = none := by
  exact ⟨(turn_source_gate _ [] false).1 (by decide),
    (turn_source_gate _ [] false).2.1 (by decide) rfl⟩

/-- C10: a transcription whose stripped text normalizes (lowercase, strip
    spaces and period characters) into the hallucination set, or has fewer
    than two characters, is discarded before any other processing,
    regardless of the speaking state and of the current TTS text. -/
theorem hallucination_prefilter :
    ∀ (rawText : Str) (isSpeaking : Bool) (currentTts : Str),
      (normalizeForHallucination (pyStrip rawText) ∈ HALLUCINATIONS ∨
       (pyStrip rawText).length < 2) →
      handleVoiceInput rawText isSpeaking currentTts = VoiceAction.discard := by
  intro rawText sp c h
  have hb : hallucinationBlocked (pyStrip rawText) = true := by
    simp only [hallucinationBlocked, Bool.or_eq_true, decide_eq_true_eq]
    rcases h with h | h
    · exact Or.inl h
    · exact Or.inr h
  simp [handleVoiceInput, hb, ite_self]

/-- Witness for C10: a whitespace-wrapped, capitalized, period-terminated
    thank-you is discarded even while speaking. -/
theorem hallucination_prefilter_witness :
    handleVoiceInput (str " Thank You. ") true (str "whatever") = VoiceAction.discard :=
  hallucination_prefilter _ _ _ (Or.inl (by decide))

lemma containsSub_nil (b : Str) : containsSub [] b = true := by
  cases b <;> simp [containsSub, startsWithL]

/-- C4 (amended): for a transcription that passes the hallucination
    pre-filter, arriving while Speaking with non-empty current TTS text, it
    is discarded if and only if, after lowercasing and stripping, one text
    is a substring of the other or the shared-distinct-character ratio
    exceeds 0.7 (10 * shared > 7 * distinct); otherwise it becomes the
    pending interruption, never an enqueued stimulus. -/
theorem self_echo_filter_amended :
    ∀ (rawT c : Str), c ≠ [] → hallucinationBlocked (pyStrip rawT) = false →
      ((handleVoiceInput rawT true c = VoiceAction.discard ↔
        (containsSub (pyStrip (pyLower (pyStrip rawT))) (pyStrip (pyLower c)) = true ∨
         containsSub (pyStrip (pyLower c)) (pyStrip (pyLower (pyStrip rawT))) = true ∨
         7 * (pyStrip (pyLower (pyStrip rawT))).dedup.length <
           10 * ((pyStrip (pyLower (pyStrip rawT))).dedup.filter
             (fun ch => ch ∈ (pyStrip (pyLower c)).dedup)).length)) ∧
       (handleVoiceInput rawT true c ≠ VoiceAction.discard →
         handleVoiceInput rawT true c = VoiceAction.interrupt (pyStrip rawT))) := by
  intro rawT c hc hh
  have htne : pyStrip rawT ≠ [] := by
    intro h0
    rw [h0] at hh
    simp [hallucinationBlocked] at hh
  have hhandler : handleVoiceInput rawT true c =
      (if isSelfEcho (pyStrip rawT) c = true then VoiceAction.discard
       else VoiceAction.interrupt (pyStrip rawT)) := by
    simp [handleVoiceInput, htne, hh]
  have hecho : isSelfEcho (pyStrip rawT) c = true ↔
      (containsSub (pyStrip (pyLower (pyStrip rawT))) (pyStrip (pyLower c)) = true ∨
       containsSub (pyStrip (pyLower c)) (pyStrip (pyLower (pyStrip rawT))) = true ∨
       7 * (pyStrip (pyLower (pyStrip rawT))).dedup.length <
         10 * ((pyStrip (pyLower (pyStrip rawT))).dedup.filter
           (fun ch => ch ∈ (pyStrip (pyLower c)).dedup)).length) := by
    by_cases hsub : (containsSub (pyStrip (pyLower (pyStrip rawT))) (pyStrip (pyLower c)) ||
        containsSub (pyStrip (pyLower c)) (pyStrip (pyLower (pyStrip rawT)))) = true
    · refine iff_of_true (by simp [isSelfEcho, hc, hsub]) ?_
      have hsub2 : containsSub (pyStrip (pyLower (pyStrip rawT))) (pyStrip (pyLower c)) = true ∨
          containsSub (pyStrip (pyLower c)) (pyStrip (pyLower (pyStrip rawT))) = true := by
        simpa using hsub
      rcases hsub2 with h1 | h1
      · exact Or.inl h1
      · exact Or.inr (Or.inl h1)
    · rw [Bool.or_eq_true] at hsub
      push_neg at hsub
      obtain ⟨ha, hb⟩ := hsub
      have ha' : containsSub (pyStrip (pyLower (pyStrip rawT))) (pyStrip (pyLower c)) = false :=
        by simpa using ha
      have hb' : containsSub (pyStrip (pyLower c)) (pyStrip (pyLower (pyStrip rawT))) = false :=
        by simpa using hb
      have ht' : pyStrip (pyLower (pyStrip rawT)) ≠ [] := by
        intro h0
        rw [h0] at ha'
        rw [containsSub_nil] at ha'
        exact Bool.true_eq_false.mp ha'
      have hd : (pyStrip (pyLower (pyStrip rawT))).dedup ≠ [] := by
        intro h0
        exact ht' ((List.dedup_eq_nil _).mp h0)
      constructor
      · intro htrue
        refine Or.inr (Or.inr ?_)
        simp only [isSelfEcho, if_neg hc, ha', hb', Bool.or_self, Bool.false_eq_true,
          if_false, if_neg hd, decide_eq_true_eq] at htrue
        exact htrue
      · intro hor
        rcases hor with h1 | h1 | h1
        · rw [ha'] at h1; exact absurd h1 (by simp)
        · rw [hb'] at h1; exact absurd h1 (by simp)
        · simp only [isSelfEcho, if_neg hc, ha', hb', Bool.or_self, Bool.false_eq_true,
            if_false, if_neg hd, decide_eq_true_eq]
          exact h1
  constructor
  · rw [hhandler, ← hecho]
    by_cases hech : isSelfEcho (pyStrip rawT) c = true
    · simp [hech]
    · simp [hech]
  · intro hne
    rw [hhandler] at hne ⊢
    by_cases hech : isSelfEcho (pyStrip rawT) c = true
    · rw [if_pos hech] at hne
      exact absurd rfl hne
    · rw [if_neg hech]

/-- Witness for C4 (amended): a transcription that is a substring of the
    playing text is discarded; an unrelated transcription with no overlap
    becomes the pending interruption instead of being discarded. -/
theorem self_echo_filter_amended_witness :
    handleVoiceInput (str "hello world") true (str "well hello world friend") =
      VoiceAction.discard ∧
    handleVoiceInput (str "totally different words") true (str "再见朋友") =
      VoiceAction.interrupt (pyStrip (str "totally different words")) := by
  have h1 := self_echo_filter_amended (str "hello world") (str "well hello world friend")
    (by decide) (by decide)
  have h2 := self_echo_filter_amended (str "totally different words") (str "再见朋友")
    (by decide) (by decide)
  exact ⟨h1.1.mpr (Or.inl (by decide)),
    h2.2 (fun habs => absurd (h2.1.mp habs) (by decide))⟩

/-- C4 counterexample: the transcription bye, arriving while Speaking with
    the unrelated current text 香蕉苹果好吃 (no substring relation, zero
    shared distinct characters, far below the 0.7 ratio), is nevertheless
    discarded — the hallucination pre-filter runs before the self-echo
    classification, so the claimed if-and-only-if fails as stated. -/
theorem self_echo_filter_counterexample :
    containsSub (pyStrip (pyLower (pyStrip (str "bye")))) (pyStrip (pyLower (str "香蕉苹果好吃"))) =
      false ∧
    containsSub (pyStrip (pyLower (str "香蕉苹果好吃"))) (pyStrip (pyLower (pyStrip (str "bye")))) =
      false ∧
    ((pyStrip (pyLower (pyStrip (str "bye")))).dedup.filter
      (fun ch => ch ∈ (pyStrip (pyLower (str "香蕉苹果好吃"))).dedup)).length = 0 ∧
    handleVoiceInput (str "bye") true (str "香蕉苹果好吃") = VoiceAction.discard := by
  decide

lemma dropWs_head_not_ws : ∀ (s : Str) (c : Char) (r : Str),
    dropWs s = c :: r → isWs c = false := by
  intro s
  induction s with
  | nil => intro c r h; simp [dropWs] at h
  | cons a t ih =>
    intro c r h
    by_cases ha : isWs a = true
    · simp [dropWs, ha] at h
      exact ih c r h
    · have ha' : isWs a = false := by simpa using ha
      simp [dropWs, ha'] at h
      rw [← h.1]
      exact ha'

lemma dropWs_not_ws_head (c : Char) (r : Str) (h : isWs c = false) :
    dropWs (c :: r) = c :: r := by
  simp [dropWs, h]

lemma dropWsEnd_cons_shape (c : Char) (r : Str) :
    dropWsEnd (c :: r) = [] ∨ ∃ r2, dropWsEnd (c :: r) = c :: r2 := by
  simp only [dropWsEnd]
  split
  · exact Or.inl rfl
  · exact Or.inr ⟨dropWsEnd r, rfl⟩

lemma dropWsEnd_idem : ∀ s : Str, dropWsEnd (dropWsEnd s) = dropWsEnd s := by
  intro s
  induction s with
  | nil => simp [dropWsEnd]
  | cons c t ih =>
    simp only [dropWsEnd]
    split
    · simp [dropWsEnd]
    · next hcond =>
      simp only [dropWsEnd, ih]
      split
      · next hcond2 =>
        exact absurd (by simpa using hcond2) (by simpa using hcond)
      · rfl

lemma pyStrip_idem (s : Str) : pyStrip (pyStrip s) = pyStrip s := by
  unfold pyStrip
  cases hu : dropWs s with
  | nil => simp [dropWsEnd, dropWs]
  | cons a t =>
    have ha : isWs a = false := dropWs_head_not_ws s a t hu
    rcases dropWsEnd_cons_shape a t with h | ⟨r2, h⟩
    · rw [h]
      simp [dropWs, dropWsEnd]
    · rw [h, dropWs_not_ws_head a r2 ha, ← h, dropWsEnd_idem]

lemma groupScan_ne_nil : ∀ (s acc g rem : Str), groupScan acc s = some (g, rem) → g ≠ [] := by
  intro s
  induction s with
  | nil => intro acc g rem h; simp [groupScan] at h
  | cons c rest ih =>
    intro acc g rem h
    simp only [groupScan] at h
    split at h
    · next hcond =>
      simp only [Option.some.injEq, Prod.mk.injEq] at h
      rw [← h.1]
      have hacc : acc ≠ [] := by
        have := hcond
        simp [Bool.and_eq_true] at this
        exact this.1
      simpa using hacc
    · split at h
      · simp at h
      · exact ih (c :: acc) g rem h

lemma matchMd_group_ne_nil : ∀ (s g rem : Str), matchMd s = some (g, rem) → g ≠ [] := by
  intro s g rem h
  cases s with
  | nil => simp [matchMd] at h
  | cons c1 rest1 =>
    cases rest1 with
    | nil => simp [matchMd] at h
    | cons c2 rest2 =>
      simp only [matchMd] at h
      by_cases hc1 : c1 = '*'
      · rw [if_pos hc1] at h
        by_cases hc2 : c2 = '*'
        · rw [if_pos hc2] at h
          cases hg1 : groupScan [] rest2 with
          | some pr =>
            obtain ⟨g1, r1⟩ := pr
            rw [hg1] at h
            simp only [Option.some.injEq, Prod.mk.injEq] at h
            rw [← h.1]
            exact groupScan_ne_nil rest2 [] g1 r1 hg1
          | none =>
            rw [hg1] at h
            cases hg2 : groupScan [] (c2 :: rest2) with
            | some pr =>
              obtain ⟨g2, r2⟩ := pr
              rw [hg2] at h
              simp only [Option.some.injEq, Prod.mk.injEq] at h
              rw [← h.1]
              exact groupScan_ne_nil (c2 :: rest2) [] g2 r2 hg2
            | none => rw [hg2] at h; simp at h
        · rw [if_neg hc2] at h
          cases hg1 : groupScan [] (c2 :: rest2) with
          | some pr =>
            obtain ⟨g1, r1⟩ := pr
            rw [hg1] at h
            simp only [Option.some.injEq, Prod.mk.injEq] at h
            rw [← h.1]
            exact groupScan_ne_nil (c2 :: rest2) [] g1 r1 hg1
          | none => rw [hg1] at h; simp at h
      · rw [if_neg hc1] at h
        simp at h

lemma mdStrip_ne_nil : ∀ t : Str, t ≠ [] → mdStrip t ≠ [] := by
  intro t ht
  cases t with
  | nil => exact absurd rfl ht
  | cons c rest =>
    simp only [mdStrip, List.length_cons]
    rw [mdStripF]
    cases hm : matchMd (c :: rest) with
    | some pr =>
      obtain ⟨g, r⟩ := pr
      simp only [hm]
      have hg := matchMd_group_ne_nil (c :: rest) g r hm
      intro habs
      rcases List.append_eq_nil.mp habs with ⟨h1, _⟩
      exact hg h1
    | none => simp [hm]

lemma splitNlGo_no_nl : ∀ (s acc : Str), '\n' ∉ s → splitNlGo acc s = [acc.reverse ++ s] := by
  intro s
  induction s with
  | nil => intro acc _; simp [splitNlGo]
  | cons c rest ih =>
    intro acc h
    have hc : ¬(c = '\n') := by
      intro h0
      exact h (by simp [h0])
    simp only [splitNlGo, if_neg hc]
    rw [ih (c :: acc) (fun hm => h (List.mem_cons_of_mem c hm))]
    simp

lemma sentGo_no_punct : ∀ (n : Nat) (s acc : Str), s.length ≤ n →
    (∀ ch ∈ s, isSentPunct ch = false) → sentGo n acc s = [acc.reverse ++ s] := by
  intro n
  induction n with
  | zero =>
    intro s acc hl _
    have hs : s = [] := List.length_eq_zero.mp (Nat.le_zero.mp hl)
    subst hs
    simp [sentGo]
  | succ n ih =>
    intro s acc hl hp
    cases s with
    | nil => simp [sentGo]
    | cons c rest =>
      have hc : isSentPunct c = false := hp c (by simp)
      simp only [sentGo, hc, Bool.false_eq_true, if_false]
      rw [ih rest (c :: acc) (by simpa using hl) (fun ch hm => hp ch (by simp [hm]))]
      simp

lemma hasDoubleDash_tail (c : Char) (rest : Str) (h : hasDoubleDash (c :: rest) = false) :
    hasDoubleDash rest = false := by
  cases rest with
  | nil => rfl
  | cons b r =>
    simp only [hasDoubleDash, Bool.or_eq_false_iff] at h
    exact h.2

lemma hasDoubleDash_head (c : Char) (x : Str) (hc : c = '—') :
    hasDoubleDash (c :: '—' :: x) = true := by
  subst hc
  simp [hasDoubleDash]

lemma clauseGo_no_punct : ∀ (n : Nat) (s : Str) (prev : Option Char) (acc : Str),
    s.length ≤ n → (∀ ch ∈ s, isClausePunct ch = false) → hasDoubleDash s = false →
    (prev = some '—' → ∀ x, s ≠ '—' :: x) →
    clauseGo n prev acc s = [acc.reverse ++ s] := by
  intro n
  induction n with
  | zero =>
    intro s prev acc hl _ _ _
    have hs : s = [] := List.length_eq_zero.mp (Nat.le_zero.mp hl)
    subst hs
    simp [clauseGo]
  | succ n ih =>
    intro s prev acc hl hp hdd hpr
    cases s with
    | nil => simp [clauseGo]
    | cons c rest =>
      have hc : isClausePunct c = false := hp c (by simp)
      have hdash : ¬(c = '—' ∧ prev = some '—') := by
        rintro ⟨h1, h2⟩
        exact hpr h2 rest (by rw [h1])
      simp only [clauseGo, hc, Bool.false_eq_true, if_false, if_neg hdash]
      rw [ih rest (some c) (c :: acc) (by simpa using hl)
        (fun ch hm => hp ch (by simp [hm]))
        (hasDoubleDash_tail c rest hdd)
        (by
          intro hcd x hx
          have hcc : c = '—' := by simpa using hcd
          rw [hx] at hdd
          rw [hasDoubleDash_head c x hcc] at hdd
          exact Bool.true_eq_false.mp hdd)]
      simp

lemma greedyPack_mem_ne_nil : ∀ (parts : List Str) (current : Str),
    (∀ q ∈ parts, q ≠ []) → ∀ x ∈ greedyPack current parts, x ≠ [] := by
  intro parts
  induction parts with
  | nil =>
    intro current _ x hx
    simp only [greedyPack] at hx
    split at hx
    · simp at hx
    · next hcur =>
      simp only [List.mem_singleton] at hx
      subst hx
      exact hcur
  | cons q ps ih =>
    intro current hq x hx
    simp only [greedyPack] at hx
    split at hx
    · next hcond =>
      rcases List.mem_cons.mp hx with h | h
      · subst h; exact hcond.1
      · exact ih q (fun z hz => hq z (by simp [hz])) x h
    · exact ih (current ++ q) (fun z hz => hq z (by simp [hz])) x hx

lemma processSentence_mem_ne_nil : ∀ (s x : Str), x ∈ processSentence s → x ≠ [] := by
  intro s x hx
  simp only [processSentence] at hx
  split at hx
  · simp at hx
  · next hne =>
    split at hx
    · simp only [List.mem_singleton] at hx
      subst hx
      exact hne
    · refine greedyPack_mem_ne_nil _ [] ?_ x hx
      intro q hq
      simp only [List.mem_filter, decide_eq_true_eq] at hq
      exact hq.2

lemma processPara_mem_ne_nil : ∀ (para x : Str), para ≠ [] → x ∈ processPara para → x ≠ [] := by
  intro para x hpara hx
  simp only [processPara] at hx
  split at hx
  · simp only [List.mem_singleton] at hx
    subst hx
    exact hpara
  · rw [List.mem_flatMap] at hx
    obtain ⟨sen, _, hx⟩ := hx
    exact processSentence_mem_ne_nil sen x hx

/-- C9 counterexample: on the empty reply text the splitter returns a single
    empty segment, so it does not always return a non-empty segment. -/
theorem subtitle_splitter_counterexample :
    splitSubtitles (str "") = [str ""] := by decide

/-- C9 (amended): for every non-empty reply text the splitter returns at
    least one segment and every returned segment is non-empty; it prefers
    sentence-terminal breaks and clause-level greedy packing, and when the
    (markdown-stripped) text contains no newline and its stripped form has
    no sentence or clause punctuation and no double em-dash — no split
    point at all — the stripped text is returned whole as the single
    segment, never truncated. -/
theorem subtitle_splitter_amended :
    ∀ t : Str, t ≠ [] →
      (splitSubtitles t ≠ [] ∧ ∀ s ∈ splitSubtitles t, s ≠ []) ∧
      ('\n' ∉ mdStrip t → pyStrip (mdStrip t) ≠ [] →
       (∀ ch ∈ pyStrip (mdStrip t), isSentPunct ch = false ∧ isClausePunct ch = false) →
       hasDoubleDash (pyStrip (mdStrip t)) = false →
       splitSubtitles t = [pyStrip (mdStrip t)]) := by
  intro t ht
  constructor
  · simp only [splitSubtitles]
    split
    · refine ⟨by simp, ?_⟩
      intro s hs
      simp only [List.mem_singleton] at hs
      subst hs
      exact mdStrip_ne_nil t ht
    · next hseg =>
      refine ⟨hseg, ?_⟩
      intro s hs
      rw [List.mem_flatMap] at hs
      obtain ⟨para, hpara, hs⟩ := hs
      simp only [List.mem_filter, decide_eq_true_eq] at hpara
      exact processPara_mem_ne_nil para s hpara.2 hs
  · intro hnl hpne hpunct hdd
    have h1 : splitOnNl (mdStrip t) = [mdStrip t] := by
      have := splitNlGo_no_nl (mdStrip t) [] hnl
      simpa [splitOnNl] using this
    have h2 : ((splitOnNl (mdStrip t)).map pyStrip).filter (fun p => p ≠ []) =
        [pyStrip (mdStrip t)] := by
      rw [h1]
      simp [hpne]
    have hidem : pyStrip (pyStrip (mdStrip t)) = pyStrip (mdStrip t) := pyStrip_idem _
    simp only [splitSubtitles, h2, List.flatMap_cons, List.flatMap_nil, List.append_nil]
    by_cases hlen : (pyStrip (mdStrip t)).length ≤ MAX_SUBTITLE_LEN
    · rw [processPara, if_pos hlen]
      rw [if_neg (by simp [hpne])]
    · have hsent : sentenceSplit (pyStrip (mdStrip t)) = [pyStrip (mdStrip t)] := by
        have := sentGo_no_punct (pyStrip (mdStrip t)).length (pyStrip (mdStrip t)) []
          (le_refl _) (fun ch hm => (hpunct ch hm).1)
        simpa [sentenceSplit] using this
      have hclause : clauseSplit (pyStrip (mdStrip t)) = [pyStrip (mdStrip t)] := by
        have := clauseGo_no_punct (pyStrip (mdStrip t)).length (pyStrip (mdStrip t)) none []
          (le_refl _) (fun ch hm => (hpunct ch hm).2) hdd (by simp)
        simpa [clauseSplit] using this
      have hgp : greedyPack [] [pyStrip (mdStrip t)] = [pyStrip (mdStrip t)] := by
        simp only [greedyPack]
        rw [if_neg (by simp)]
        simp only [List.nil_append]
        rw [if_neg hpne]
      have hps : processSentence (pyStrip (mdStrip t)) = [pyStrip (mdStrip t)] := by
        simp only [processSentence, hidem]
        rw [if_neg hpne, if_neg hlen, hclause]
        simp only [List.map_cons, List.map_nil, hidem]
        rw [show ([pyStrip (mdStrip t)].filter (fun p => p ≠ [])) = [pyStrip (mdStrip t)] by
          simp [hpne]]
        exact hgp
      have hpp : processPara (pyStrip (mdStrip t)) = [pyStrip (mdStrip t)] := by
        rw [processPara, if_neg hlen, hsent]
        simp only [List.flatMap_cons, List.flatMap_nil, List.append_nil]
        exact hps
      rw [hpp]
      rw [if_neg (by simp)]

set_option maxRecDepth 8192 in
/-- Witness for C9 (amended): a 31-character unpunctuated text is returned
    whole as a single non-empty segment. -/
theorem subtitle_splitter_amended_witness :
    splitSubtitles (List.replicate 31 'a') ≠ [] ∧
    splitSubtitles (List.replicate 31 'a') = [pyStrip (mdStrip (List.replicate 31 'a'))] := by
  have h := subtitle_splitter_amended (List.replicate 31 'a') (by decide)
  exact ⟨h.1.1, h.2 (by decide) (by decide) (by decide) (by decide)⟩

end XiaoTang
